import Mathlib

/-!
Verification of the Honcho memory plugin (openclaw-honcho).

Shallow embedding of:
* the content extractor / sanitizer (`cleanMessageContent`, `extractMessages`,
  src/index.ts lines 852-907),
* the incremental sync handler (`agent_end` hook, src/index.ts lines 163-234),
* the configuration parser (`resolveEnvVars`, `honchoConfigSchema.parse`,
  src/config.ts),
* the migration / archival variants (src/install.js and the two legacy
  install-script variants in the repository),
* the managed-section file merger (modelled from the spec; it has no
  implementation under src/).

JavaScript strings are modelled as `List Char` / `String`; the concrete
regular expressions of the source are modelled by explicit scanners that
mirror the (deterministic) backtracking behaviour of each pattern.
-/

-- ============================================================================
-- JS string primitives
-- ============================================================================

/-- The JavaScript whitespace class `\s` (also used by `String.prototype.trim`):
tab, LF, VT, FF, CR, space, NBSP, and the Unicode space separators. -/
def isJsWhitespace (c : Char) : Bool :=
  c.val == 9 || c.val == 10 || c.val == 11 || c.val == 12 || c.val == 13 ||
  c.val == 32 || c.val == 0x00A0 || c.val == 0x1680 ||
  (0x2000 ≤ c.val && c.val ≤ 0x200A) ||
  c.val == 0x2028 || c.val == 0x2029 || c.val == 0x202F || c.val == 0x205F ||
  c.val == 0x3000 || c.val == 0xFEFF

/-- `String.prototype.trim` on a character list: drop JS whitespace from both
ends. -/
def jsTrimL (l : List Char) : List Char :=
  List.reverse (List.dropWhile isJsWhitespace
    (List.reverse (List.dropWhile isJsWhitespace l)))

/-- `String.prototype.trim`. -/
def jsTrim (s : String) : String := String.mk (jsTrimL s.data)

/-- Case-insensitive character comparison, as used by the `i` regex flag (all
pattern characters in the source are ASCII). -/
def lowerEq (a b : Char) : Bool := a.toLower == b.toLower

/-- Case-insensitive "the text starts with the pattern". -/
def startsWithCI : List Char → List Char → Bool
  | [], _ => true
  | _ :: _, [] => false
  | p :: ps, c :: cs => lowerEq p c && startsWithCI ps cs

/-- Case-insensitive substring test: some suffix of the text starts with the
pattern. -/
def containsCI (pat : List Char) : List Char → Bool
  | [] => startsWithCI pat []
  | c :: cs => startsWithCI pat (c :: cs) || containsCI pat cs

/-- Split at the first `'>'`: returns the characters before it (all non-`'>'`)
and the suffix after it. -/
def splitAtGt : List Char → Option (List Char × List Char)
  | [] => none
  | c :: cs =>
    if c = '>' then some ([], cs)
    else (splitAtGt cs).map (fun p => (c :: p.1, p.2))

-- ============================================================================
-- Sanitizer, step 1: /<honcho-memory[^>]*>[\s\S]*?<\/honcho-memory>\s*/gi
-- (src/index.ts line 855)
-- ============================================================================

/-- The opening literal of the injected memory-context markup. -/
def openTag : List Char := "<honcho-memory".data

/-- The closing tag of the injected memory-context markup. -/
def closeTag : List Char := "</honcho-memory>".data

/-- The non-greedy `[\s\S]*?<\/honcho-memory>` part: the suffix after the
first case-insensitive occurrence of the closing tag. -/
def findCloseCI : List Char → Option (List Char)
  | [] => none
  | c :: cs =>
    if startsWithCI closeTag (c :: cs) then some (List.drop closeTag.length (c :: cs))
    else findCloseCI cs

/-- Global replacement of `/<honcho-memory[^>]*>[\s\S]*?<\/honcho-memory>\s*/gi`
with the empty string: scan left to right; at a position where the open
literal matches (case-insensitively), `[^>]*>` runs to the first `'>'`, the
lazy body runs to the first closing tag, then `\s*` greedily eats trailing
whitespace; otherwise emit one character and continue.  The fuel argument is
an upper bound on the input length (each step consumes at least one
character), keeping the definition structurally recursive and executable. -/
def removeHonchoBlocksAux : Nat → List Char → List Char
  | 0, l => l
  | _ + 1, [] => []
  | fuel + 1, c :: cs =>
    if startsWithCI openTag (c :: cs) then
      match splitAtGt (List.drop openTag.length (c :: cs)) with
      | none => c :: removeHonchoBlocksAux fuel cs
      | some (_, afterGt) =>
        match findCloseCI afterGt with
        | none => c :: removeHonchoBlocksAux fuel cs
        | some afterClose =>
          removeHonchoBlocksAux fuel (afterClose.dropWhile isJsWhitespace)
    else c :: removeHonchoBlocksAux fuel cs

/-- Remove every injected `<honcho-memory ...>...</honcho-memory>` block. -/
def removeHonchoBlocks (l : List Char) : List Char :=
  removeHonchoBlocksAux l.length l

-- ============================================================================
-- Sanitizer, step 2: /<!--[^>]*honcho[^>]*-->\s*/gi  (src/index.ts line 856)
-- ============================================================================

/-- The `honcho` literal of the comment pattern. -/
def honchoWord : List Char := "honcho".data

/-- Global replacement of `/<!--[^>]*honcho[^>]*-->\s*/gi`: after a literal
`<!--` the closing `'>'` must be the first one (every other matched character
is `[^>]`), so the span up to the first `'>'` must end in `--` and the part
before that `--` must contain `honcho` case-insensitively. -/
def removeHonchoCommentsAux : Nat → List Char → List Char
  | 0, l => l
  | _ + 1, [] => []
  | fuel + 1, c :: cs =>
    if List.isPrefixOf "<!--".data (c :: cs) then
      match splitAtGt (List.drop 4 (c :: cs)) with
      | none => c :: removeHonchoCommentsAux fuel cs
      | some (inner, afterGt) =>
        if List.isSuffixOf "--".data inner
            && containsCI honchoWord (List.take (inner.length - 2) inner) then
          removeHonchoCommentsAux fuel (afterGt.dropWhile isJsWhitespace)
        else c :: removeHonchoCommentsAux fuel cs
    else c :: removeHonchoCommentsAux fuel cs

/-- Remove every `<!-- ... honcho ... -->` comment. -/
def removeHonchoComments (l : List Char) : List Char :=
  removeHonchoCommentsAux l.length l

-- ============================================================================
-- Sanitizer, step 3: /^\[\w+\s+.+?\s+id:\d+\s+[^\]]+\]\s*/
-- (src/index.ts line 858) — a small backtracking matcher
-- ============================================================================

/-- The regex `\w` class. -/
def isWordChar (c : Char) : Bool :=
  ('a' ≤ c && c ≤ 'z') || ('A' ≤ c && c ≤ 'Z') || ('0' ≤ c && c ≤ '9') || c = '_'

/-- The regex `\d` class. -/
def isDigitChar (c : Char) : Bool := '0' ≤ c && c ≤ '9'

/-- The regex `.` without the `s` flag: anything but a line terminator. -/
def isDotChar (c : Char) : Bool :=
  !(c.val == 10 || c.val == 13 || c.val == 0x2028 || c.val == 0x2029)

/-- Suffixes after `cls*`, in greedy preference order (longest first). -/
def greedyStarSuffixes (cls : Char → Bool) : List Char → List (List Char)
  | [] => [[]]
  | c :: cs =>
    if cls c then greedyStarSuffixes cls cs ++ [c :: cs] else [c :: cs]

/-- Suffixes after `cls+`, in greedy preference order. -/
def greedyPlusSuffixes (cls : Char → Bool) : List Char → List (List Char)
  | [] => []
  | c :: cs => if cls c then greedyStarSuffixes cls cs else []

/-- Suffixes after `cls*`, in lazy preference order (shortest first). -/
def lazyStarSuffixes (cls : Char → Bool) : List Char → List (List Char)
  | [] => [[]]
  | c :: cs =>
    if cls c then (c :: cs) :: lazyStarSuffixes cls cs else [c :: cs]

/-- Suffixes after `cls+?`, in lazy preference order. -/
def lazyPlusSuffixes (cls : Char → Bool) : List Char → List (List Char)
  | [] => []
  | c :: cs => if cls c then lazyStarSuffixes cls cs else []

/-- First candidate on which the continuation succeeds (backtracking). -/
def firstSome {α β : Type} (f : α → Option β) : List α → Option β
  | [] => none
  | a :: as =>
    match f a with
    | some b => some b
    | none => firstSome f as

/-- Match `^\[\w+\s+.+?\s+id:\d+\s+[^\]]+\]\s*` at the start of the text,
returning the suffix after the match.  Alternatives are tried in the JS
backtracking preference order (greedy quantifiers longest-first, the lazy
`.+?` shortest-first). -/
def matchPlatformHeader (l : List Char) : Option (List Char) :=
  match l with
  | '[' :: l1 =>
    firstSome (fun s1 =>
      firstSome (fun s2 =>
        firstSome (fun s3 =>
          firstSome (fun s4 =>
            match s4 with
            | 'i' :: 'd' :: ':' :: s5 =>
              firstSome (fun s6 =>
                firstSome (fun s7 =>
                  firstSome (fun s8 =>
                    match s8 with
                    | ']' :: s9 => some (s9.dropWhile isJsWhitespace)
                    | _ => none)
                  (greedyPlusSuffixes (fun c => c ≠ ']') s7))
                (greedyPlusSuffixes isJsWhitespace s6))
              (greedyPlusSuffixes isDigitChar s5)
            | _ => none)
          (greedyPlusSuffixes isJsWhitespace s3))
        (lazyPlusSuffixes isDotChar s2))
      (greedyPlusSuffixes isJsWhitespace s1))
    (greedyPlusSuffixes isWordChar l1)
  | _ => none

/-- Remove a leading platform header `[Platform Name id:123456 timestamp]`
(the pattern is anchored with `^`, so only a match at the start is removed). -/
def stripPlatformHeader (l : List Char) : List Char :=
  match matchPlatformHeader l with
  | some rest => rest
  | none => l

-- ============================================================================
-- Sanitizer, step 4: /\s*\[message_id:\s*[^\]]+\]\s*$/
-- (src/index.ts line 860)
-- ============================================================================

/-- Does `\s*\[message_id:\s*[^\]]+\]\s*$` match the whole of `l` (the `$`
anchor requires the match to run to the end of the string)? -/
def matchesTrailingMessageId (l : List Char) : Bool :=
  (firstSome (fun s1 =>
    if List.isPrefixOf "[message_id:".data s1 then
      let s2 := List.drop 12 s1
      firstSome (fun s3 =>
        firstSome (fun s4 =>
          match s4 with
          | ']' :: s5 => if s5.dropWhile isJsWhitespace = [] then some () else none
          | _ => none)
        (greedyPlusSuffixes (fun c => c ≠ ']') s3))
      (greedyStarSuffixes isJsWhitespace s2)
    else none)
  (greedyStarSuffixes isJsWhitespace l)).isSome

/-- Remove a trailing `[message_id: xxx]` marker: the replacement is the text
before the leftmost position from which the pattern matches to the end. -/
def stripMessageId : List Char → List Char
  | [] => []
  | c :: cs =>
    if matchesTrailingMessageId (c :: cs) then []
    else c :: stripMessageId cs

-- ============================================================================
-- cleanMessageContent (src/index.ts lines 852-862)
-- ============================================================================

/-- Steps 2-4 of the sanitizer plus the final `trim()`: everything
`cleanMessageContent` does after the memory-block removal. -/
def cleanFromComments (l : List Char) : String :=
  String.mk (jsTrimL (stripMessageId (stripPlatformHeader (removeHonchoComments l))))

/-- `cleanMessageContent`: strip injected `<honcho-memory>` blocks, honcho
HTML comments, a leading platform header and a trailing message-id marker,
then trim. -/
def cleanMessageContent (s : String) : String :=
  cleanFromComments (removeHonchoBlocks s.data)

-- ============================================================================
-- Content extractor (src/index.ts lines 864-907)
-- ============================================================================

/-- A typed content block of a turn.  The source keeps a block only when
`block.type === "text"` and `typeof block.text === "string"`; `text = none`
models a missing or non-string `text` field. -/
structure ContentBlock where
  type : String
  text : Option String
deriving DecidableEq, Repr

/-- The content of a raw message: a plain string, an array of typed blocks,
or anything else (which the source flattens to the empty string). -/
inductive MessageContent where
  | str (s : String)
  | blocks (bs : List ContentBlock)
  | other
deriving DecidableEq, Repr

/-- One raw message of the `agent_end` event (a turn of the log).  The role
is free-form; only `"user"` and `"assistant"` are kept by the extractor. -/
structure Turn where
  role : String
  content : MessageContent
deriving DecidableEq, Repr

/-- Peer id of the owner (src/index.ts line 18). -/
def OWNER_ID : String := "owner"

/-- Peer id of the agent itself (src/index.ts line 19). -/
def MOLTBOT_ID : String := "moltbot"

/-- A message submitted to the remote session: `peer.message(content)`. -/
structure StoredMessage where
  peerId : String
  content : String
deriving DecidableEq, Repr

/-- Flatten a turn's content: a string is used as-is; for a block array only
`"text"`-typed blocks with a string `text` are kept, newline-joined. -/
def flattenContent : MessageContent → String
  | .str s => s
  | .blocks bs =>
    String.intercalate "\n"
      ((bs.filter (fun b => b.type == "text")).filterMap (fun b => b.text))
  | .other => ""

/-- `extractMessages`: keep only user/assistant turns, flatten, sanitize user
turns with `cleanMessageContent`, trim, and drop turns whose remaining text is
empty; user turns are attributed to the owner peer, assistant turns to the
agent peer, in the original order. -/
def extractMessages : List Turn → List StoredMessage
  | [] => []
  | msg :: rest =>
    if msg.role != "user" && msg.role != "assistant" then extractMessages rest
    else
      let content := flattenContent msg.content
      let content := if msg.role == "user" then cleanMessageContent content else content
      let content := jsTrim content
      if content = "" then extractMessages rest
      else
        { peerId := if msg.role == "user" then OWNER_ID else MOLTBOT_ID,
          content := content } :: extractMessages rest

-- ============================================================================
-- Incremental sync engine: the agent_end hook (src/index.ts lines 163-234)
-- ============================================================================

/-- The `agent_end` event: a success flag and the full turn log. -/
structure AgentEndEvent where
  success : Bool
  messages : List Turn
deriving DecidableEq, Repr

/-- The per-session persisted state visible to the hook: the `lastSavedIndex`
watermark stored in the session metadata (absent for a fresh session) and the
session's stored message history (what `addMessages` has appended). -/
structure SyncState where
  lastSavedIndex : Option Nat
  history : List StoredMessage
deriving DecidableEq, Repr

/-- One run of the `agent_end` hook.  `addMessagesFails` models a thrown
`session.addMessages` call: the `catch` block only logs, so the state at the
failure point is kept (any earlier `setMetadata`, such as the first-time
watermark initialization, has already been persisted).  Peer registration
(`addPeers`) does not touch the modelled state. -/
def agentEnd (addMessagesFails : Bool) (event : AgentEndEvent) (st : SyncState) :
    SyncState :=
  if !event.success || event.messages.isEmpty then st
  else
    -- Initialize lastSavedIndex if not set (new session - skip backlog);
    -- Math.max(0, length - 2).
    let st1 :=
      match st.lastSavedIndex with
      | none =>
        { st with lastSavedIndex := some (Nat.max 0 (event.messages.length - 2)) }
      | some _ => st
    let lastSavedIndex := st1.lastSavedIndex.getD 0
    -- Skip if nothing new.
    if event.messages.length ≤ lastSavedIndex then st1
    else
      let newRawMessages := event.messages.drop lastSavedIndex
      let msgs := extractMessages newRawMessages
      if msgs.isEmpty then
        -- Update index even if no saveable content.
        { st1 with lastSavedIndex := some event.messages.length }
      else if addMessagesFails then st1
      else
        { lastSavedIndex := some event.messages.length,
          history := st1.history ++ msgs }

-- ============================================================================
-- Configuration (src/config.ts)
-- ============================================================================

/-- Raw plugin configuration as passed to `honchoConfigSchema.parse`; `none`
models an absent (or wrongly-typed) field.  JS numbers are narrowed to `Int`
(the only numeric option, `syncFrequency`, is floored by the source). -/
structure RawPluginConfig where
  apiKey : Option String
  workspaceId : Option String
  baseUrl : Option String
  syncOnStartup : Option Bool
  dailySyncEnabled : Option Bool
  syncFrequency : Option Int
deriving DecidableEq, Repr

/-- The parsed configuration (`HonchoConfig`). -/
structure HonchoConfig where
  apiKey : Option String
  workspaceId : String
  baseUrl : String
  syncOnStartup : Bool
  dailySyncEnabled : Bool
  syncFrequency : Int
deriving DecidableEq, Repr

/-- Split at the first `'}'` (code point 125): the characters before it and
the suffix after it. -/
def splitAtRBrace : List Char → Option (List Char × List Char)
  | [] => none
  | c :: cs =>
    if c.val = 125 then some ([], cs)
    else (splitAtRBrace cs).map (fun p => (c :: p.1, p.2))

/-- Parse a `\x7bNAME\x7d` brace reference right after a `'$'`: the pattern
`\$\{([^}]+)\}` needs an opening brace (code point 123), at least one
non-brace character, and a closing brace. -/
def matchEnvRef (cs : List Char) : Option (String × List Char) :=
  match cs with
  | b :: cs2 =>
    if b.val = 123 then
      match splitAtRBrace cs2 with
      | some (nm, rest) => if nm = [] then none else some (String.mk nm, rest)
      | none => none
    else none
  | [] => none

/-- `resolveEnvVars` scanner: global replacement of `\$\{([^}]+)\}` where the
replacement callback throws when the environment variable is unset; the
thrown message is returned as `Except.error`.  Fueled for executability. -/
def resolveEnvVarsAux (env : String → Option String) :
    Nat → List Char → Except String (List Char)
  | 0, l => .ok l
  | _ + 1, [] => .ok []
  | fuel + 1, c :: cs =>
    if c = '$' then
      match matchEnvRef cs with
      | some (varName, rest) =>
        match env varName with
        | none => .error ("Environment variable " ++ varName ++ " is not set")
        | some v => (resolveEnvVarsAux env fuel rest).map (fun r => v.data ++ r)
      | none => (resolveEnvVarsAux env fuel cs).map (fun r => c :: r)
    else (resolveEnvVarsAux env fuel cs).map (fun r => c :: r)

/-- `resolveEnvVars` (src/config.ts lines 18-26). -/
def resolveEnvVars (env : String → Option String) (value : String) :
    Except String String :=
  (resolveEnvVarsAux env value.data.length value.data).map String.mk

/-- `honchoConfigSchema.parse` (src/config.ts lines 28-61), with the process
environment passed explicitly.  An `Except.error` models the uncaught
exception thrown by `resolveEnvVars`. -/
def parseHonchoConfig (env : String → Option String) (cfg : RawPluginConfig) :
    Except String HonchoConfig :=
  let apiKeyE : Except String (Option String) :=
    match cfg.apiKey with
    | some s =>
      if 0 < s.length then (resolveEnvVars env s).map some
      else .ok (env "HONCHO_API_KEY")
    | none => .ok (env "HONCHO_API_KEY")
  match apiKeyE with
  | .error e => .error e
  | .ok apiKey =>
    .ok
      { apiKey := apiKey,
        workspaceId :=
          match cfg.workspaceId with
          | some s => if 0 < s.length then s else (env "HONCHO_WORKSPACE_ID").getD "moltbot"
          | none => (env "HONCHO_WORKSPACE_ID").getD "moltbot",
        baseUrl :=
          match cfg.baseUrl with
          | some s => if 0 < s.length then s else (env "HONCHO_BASE_URL").getD "https://api.honcho.dev"
          | none => (env "HONCHO_BASE_URL").getD "https://api.honcho.dev",
        syncOnStartup := cfg.syncOnStartup != some false,
        dailySyncEnabled := cfg.dailySyncEnabled != some false,
        syncFrequency :=
          match cfg.syncFrequency with
          | some n => max 1 (min 1440 n)
          | none => 60 }

/-- Does `register` emit the missing-API-key startup warning?  The source
tests JS falsiness of `cfg.apiKey` (absent or empty string). -/
def registerWarnsNoApiKey (c : HonchoConfig) : Bool :=
  c.apiKey = none || c.apiKey = some ""

/-- The configuration-handling part of `register` (src/index.ts lines 32-39):
`honchoConfigSchema.parse` is called outside any try/catch, so a parse error
escapes `register`; on success registration proceeds, returning whether the
missing-credential warning was logged. -/
def registerPlugin (env : String → Option String) (cfg : RawPluginConfig) :
    Except String Bool :=
  (parseHonchoConfig env cfg).map registerWarnsNoApiKey

-- ============================================================================
-- Migration & archival variants.  The workspace is modelled as the list of
-- its top-level legacy entries (file names, and directory names standing for
-- whole directory trees); an `Outcome` records the surviving entries,
-- whether the facts were submitted, and whether a failure was reported.
-- ============================================================================

/-- Result of one migration run over the modelled workspace. -/
structure MigrationOutcome where
  workspace : List String
  submitted : Bool
  reportedFailure : Bool
deriving DecidableEq, Repr

namespace InstallJs

/-- Legacy files deleted after migration (src/install.js line 136). -/
def filesToDelete : List String := ["USER.md", "MEMORY.md"]

/-- Legacy directories deleted after migration (src/install.js line 137). -/
def dirsToDelete : List String := ["memory"]

/-- Is the entry removed by the cleanup step? -/
def deletionTarget (p : String) : Bool :=
  filesToDelete.contains p || dirsToDelete.contains p

/-- `migrateAndCleanup` of src/install.js (lines 170-292): without an API key,
or when the Honcho submission throws, the function reports the failure and
returns before the cleanup step; only after a successful migration are the
legacy files and directories removed. -/
def migrateAndCleanup (hasApiKey submitFails : Bool) (ws : List String) :
    MigrationOutcome :=
  if !hasApiKey then { workspace := ws, submitted := false, reportedFailure := true }
  else if submitFails then { workspace := ws, submitted := false, reportedFailure := true }
  else
    { workspace := ws.filter (fun p => !deletionTarget p),
      submitted := true, reportedFailure := false }

end InstallJs

namespace LegacyInstall

/-- Legacy files deleted (src/unnamed/part_002 line 276). -/
def filesToDelete : List String := ["USER.md", "MEMORY.md"]

/-- Legacy directories deleted (src/unnamed/part_002 line 277). -/
def dirsToDelete : List String := ["memory"]

/-- Is the entry removed by the cleanup step? -/
def deletionTarget (p : String) : Bool :=
  filesToDelete.contains p || dirsToDelete.contains p

/-- `migrateAndCleanup` of the legacy variant (src/unnamed/part_002 lines
310-420): submission is attempted only when facts were collected and an API
key is present, a submission error is downgraded to a warning ("Legacy files
will still be removed. Data may be lost."), and the cleanup step runs
unconditionally afterwards. -/
def migrateAndCleanup (hasApiKey submitFails hasConclusions : Bool)
    (ws : List String) : MigrationOutcome :=
  { workspace := ws.filter (fun p => !deletionTarget p),
    submitted := hasConclusions && hasApiKey && !submitFails,
    reportedFailure := hasConclusions && (!hasApiKey || submitFails) }

end LegacyInstall

namespace ArchiveInstall

/-- Legacy files archived (src/unnamed/part_001 line 384). -/
def filesToArchive : List String :=
  ["USER.md", "MEMORY.md", "AGENTS.md", "BOOTSTRAP.md", "SOUL.md"]

/-- Legacy directories archived (src/unnamed/part_001 line 385). -/
def dirsToArchive : List String := ["memory"]

/-- `uniqueArchivePath`: the plain archive destination if free, else a
timestamp suffix, else timestamp-and-counter suffixes.  The source's
unbounded `while` loop is modelled by a bounded search: the candidates are
pairwise distinct, so among the first `|ws| + 1` suffixed candidates at least
one is not an existing entry, and the first free one is returned. -/
def uniqueArchivePath (existing : List String) (timestamp name : String) : String :=
  let base := "archive/" ++ name
  if !existing.contains base then base
  else
    let candidates :=
      (List.range (existing.length + 1)).map (fun k =>
        if k = 0 then "archive/" ++ name ++ "-" ++ timestamp
        else "archive/" ++ name ++ "-" ++ timestamp ++ "-" ++ toString k)
    (candidates.find? (fun c => !existing.contains c)).getD
      ("archive/" ++ name ++ "-" ++ timestamp)

/-- Rename one legacy entry into the archive, if present. -/
def archiveOne (timestamp : String) (ws : List String) (name : String) :
    List String :=
  if ws.contains name then ws.erase name ++ [uniqueArchivePath ws timestamp name]
  else ws

/-- `migrateAndCleanup` of the archival variant (src/unnamed/part_001 lines
419-557): without an API key, or when the Honcho submission throws, the
failure is reported ("Legacy files will NOT be archived to prevent data
loss.") and the function returns; only after a successful migration are the
legacy entries renamed into the collision-safe archive location. -/
def migrateAndCleanup (hasApiKey submitFails : Bool) (timestamp : String)
    (ws : List String) : MigrationOutcome :=
  if !hasApiKey then { workspace := ws, submitted := false, reportedFailure := true }
  else if submitFails then { workspace := ws, submitted := false, reportedFailure := true }
  else
    { workspace := (filesToArchive ++ dirsToArchive).foldl (archiveOne timestamp) ws,
      submitted := true, reportedFailure := false }

end ArchiveInstall

namespace BackupScript

/-- `backupToHoncho` of the one-time backup script (src/unnamed/part_001
lines 178-248): it creates conclusions in Honcho (or warns and skips when the
key is missing, or crashes on a submission error) but never removes or
relocates any legacy file or directory. -/
def run (hasApiKey submitFails : Bool) (ws : List String) : MigrationOutcome :=
  { workspace := ws,
    submitted := hasApiKey && !submitFails,
    reportedFailure := !hasApiKey || submitFails }

end BackupScript

-- ============================================================================
-- Managed-section file merger.
-- ============================================================================

/-- Modelled from the spec: the Managed-Section File Merger (spec section 4.4)
has no implementation under src/ (only the spec describes it).  Newline split
of a character list; the last line is unterminated. -/
def splitLinesNl : List Char → List (List Char)
  | [] => [[]]
  | c :: cs =>
    if c = '\n' then [] :: splitLinesNl cs
    else
      match splitLinesNl cs with
      | l :: ls => (c :: l) :: ls
      | [] => [[c]]

/-- Modelled from the spec: inverse of `splitLinesNl` for newline-free lines. -/
def joinLinesNl : List (List Char) → List Char
  | [] => []
  | [l] => l
  | l :: ls => l ++ '\n' :: joinLinesNl ls

/-- Modelled from the spec: the fixed "do not edit" notice of the managed
section. -/
def doNotEditNotice : List Char :=
  "<!-- Do not edit below: this section is regenerated automatically. -->".data

/-- Modelled from the spec: the separator placed before the timestamp line. -/
def sectionSeparator : List Char := "---".data

/-- Modelled from the spec: construct the new managed section: header, the
"do not edit" notice, the fresh content block, a separator, and a
"last synced" timestamp line. -/
def buildManagedSection (marker fresh timestamp : List Char) : List Char :=
  marker ++ '\n' :: doNotEditNotice ++ '\n' :: '\n' :: fresh ++
    '\n' :: '\n' :: sectionSeparator ++ '\n' :: ("Last synced: ".data ++ timestamp)

/-- Modelled from the spec: the Managed-Section File Merger (spec section
4.4), missing from src/.  Read the existing content (a missing file is the
empty string), locate the managed section via the fixed header marker and
remove it; everything before that span is preserved verbatim as static
content; then concatenate the static content (if non-empty) with a blank-line
separator and the newly built managed section. -/
def mergeManagedSection (marker existing fresh timestamp : List Char) :
    List Char :=
  let ls := splitLinesNl existing
  let staticLines := ls.takeWhile (fun l => !(List.isPrefixOf marker l))
  let staticContent := joinLinesNl staticLines
  if staticContent = [] then buildManagedSection marker fresh timestamp
  else staticContent ++ '\n' :: '\n' :: buildManagedSection marker fresh timestamp

-- ============================================================================
-- The injected memory-context block
-- ============================================================================

/-- An injected memory-context block, as produced by the `before_agent_start`
hook (src/index.ts line 152): the open literal, free attribute text, `'>'`,
the block body, and the closing tag. -/
def honchoMemoryBlock (attrs body : String) : String :=
  "<honcho-memory" ++ attrs ++ ">" ++ body ++ "</honcho-memory>"

-- ============================================================================
-- Helper lemmas about the scanners
-- ============================================================================

theorem length_dropWhile_le (p : Char → Bool) (l : List Char) :
    (l.dropWhile p).length ≤ l.length := by
  induction l with
  | nil => simp [List.dropWhile]
  | cons c cs ih =>
    by_cases h : p c
    · simp [List.dropWhile, h]
      omega
    · simp [List.dropWhile, h]

theorem startsWithCI_length {p l : List Char} (h : startsWithCI p l = true) :
    p.length ≤ l.length := by
  induction p generalizing l with
  | nil => simp
  | cons a ps ih =>
    cases l with
    | nil => simp [startsWithCI] at h
    | cons c cs =>
      simp only [startsWithCI, Bool.and_eq_true] at h
      simpa [Nat.succ_le_succ_iff] using ih h.2

theorem startsWithCI_append_left {p u : List Char} (v : List Char)
    (h : p.length ≤ u.length) : startsWithCI p (u ++ v) = startsWithCI p u := by
  induction p generalizing u with
  | nil => simp [startsWithCI]
  | cons a ps ih =>
    cases u with
    | nil => simp at h
    | cons c cs =>
      show (lowerEq a c && startsWithCI ps (cs ++ v)) = (lowerEq a c && startsWithCI ps cs)
      rw [ih (by simpa [Nat.succ_le_succ_iff] using h)]

theorem startsWithCI_self_append (p v : List Char) :
    startsWithCI p (p ++ v) = true := by
  induction p with
  | nil => simp [startsWithCI]
  | cons a ps ih => simp [startsWithCI, lowerEq, ih]

theorem startsWithCI_drop_of_append {p u v : List Char}
    (h : startsWithCI p (u ++ v) = true) (hle : u.length ≤ p.length) :
    startsWithCI (p.drop u.length) v = true := by
  induction u generalizing p with
  | nil => simpa using h
  | cons a us ih =>
    cases p with
    | nil => simp at hle
    | cons b ps =>
      simp only [List.cons_append, startsWithCI, Bool.and_eq_true] at h
      simpa using ih h.2 (by simpa [Nat.succ_le_succ_iff] using hle)

theorem splitAtGt_no_gt {attrs : List Char} (r : List Char)
    (h : '>' ∉ attrs) : splitAtGt (attrs ++ '>' :: r) = some (attrs, r) := by
  induction attrs with
  | nil => simp [splitAtGt]
  | cons a as ih =>
    simp only [List.mem_cons, not_or] at h
    have ha : ¬a = '>' := fun hh => h.1 hh.symm
    simp [splitAtGt, ha, ih h.2]

theorem splitAtGt_length {l t r : List Char} (h : splitAtGt l = some (t, r)) :
    r.length < l.length := by
  induction l generalizing t r with
  | nil => simp [splitAtGt] at h
  | cons c cs ih =>
    by_cases hc : c = '>'
    · simp [splitAtGt, hc] at h
      simp [← h.2]
    · simp only [splitAtGt, hc, if_false, Option.map_eq_some'] at h
      obtain ⟨⟨t', r'⟩, hp, he⟩ := h
      cases he
      have := ih hp
      simp only [List.length_cons]
      omega

theorem findCloseCI_length {l r : List Char} (h : findCloseCI l = some r) :
    r.length + closeTag.length ≤ l.length := by
  induction l generalizing r with
  | nil => simp [findCloseCI] at h
  | cons c cs ih =>
    by_cases hs : startsWithCI closeTag (c :: cs) = true
    · have hlen := startsWithCI_length hs
      simp only [findCloseCI, hs, if_true, Option.some_inj] at h
      subst h
      simp only [List.length_drop, List.length_cons] at *
      omega
    · simp only [findCloseCI, hs, if_false] at h
      have := ih h
      simp only [List.length_cons]
      omega

theorem openTag_eq : openTag = '<' :: "honcho-memory".data := rfl

theorem closeTag_eq : closeTag = '<' :: "/honcho-memory>".data := rfl

theorem openTagTail_no_lt : ∀ c ∈ "honcho-memory".data, lowerEq c '<' = false := by
  decide

theorem closeTagTail_no_lt : ∀ c ∈ "/honcho-memory>".data, lowerEq c '<' = false := by
  decide

theorem startsWithCI_openTag_straddle {k : Nat} (hk0 : 0 < k)
    (hk : k < openTag.length) (w : List Char) :
    startsWithCI (openTag.drop k) ('<' :: w) = false := by
  have h14 : openTag.length = 14 := by decide
  have h13 : ("honcho-memory".data).length = 13 := by decide
  cases k with
  | zero => omega
  | succ k' =>
    have hk' : k' < 13 := by
      rw [h14] at hk
      omega
    rw [openTag_eq, List.drop_succ_cons]
    cases hd : List.drop k' "honcho-memory".data with
    | nil =>
      have hlen := List.length_drop k' "honcho-memory".data
      rw [hd, h13] at hlen
      simp only [List.length_nil] at hlen
      omega
    | cons d t' =>
      have hdmem : d ∈ "honcho-memory".data :=
        List.drop_subset k' _ (hd ▸ List.mem_cons_self d t')
      have hno := openTagTail_no_lt d hdmem
      simp [startsWithCI, hno]

theorem startsWithCI_closeTag_straddle {k : Nat} (hk0 : 0 < k)
    (hk : k < closeTag.length) (w : List Char) :
    startsWithCI (closeTag.drop k) ('<' :: w) = false := by
  have h16 : closeTag.length = 16 := by decide
  have h15 : ("/honcho-memory>".data).length = 15 := by decide
  cases k with
  | zero => omega
  | succ k' =>
    have hk' : k' < 15 := by
      rw [h16] at hk
      omega
    rw [closeTag_eq, List.drop_succ_cons]
    cases hd : List.drop k' "/honcho-memory>".data with
    | nil =>
      have hlen := List.length_drop k' "/honcho-memory>".data
      rw [hd, h15] at hlen
      simp only [List.length_nil] at hlen
      omega
    | cons d t' =>
      have hdmem : d ∈ "/honcho-memory>".data :=
        List.drop_subset k' _ (hd ▸ List.mem_cons_self d t')
      have hno := closeTagTail_no_lt d hdmem
      simp [startsWithCI, hno]

theorem startsWithCI_openTag_append_false {q w : List Char}
    (hq : containsCI openTag q = false) (hne : q ≠ []) :
    startsWithCI openTag (q ++ '<' :: w) = false := by
  by_cases hlen : openTag.length ≤ q.length
  · rw [startsWithCI_append_left _ hlen]
    cases q with
    | nil => exact absurd rfl hne
    | cons c cs =>
      simp only [containsCI, Bool.or_eq_false_iff] at hq
      exact hq.1
  · by_contra hcon
    have htrue : startsWithCI openTag (q ++ '<' :: w) = true := by
      revert hcon
      cases startsWithCI openTag (q ++ '<' :: w) <;> simp
    have hdrop := startsWithCI_drop_of_append htrue (by omega)
    have hq0 : 0 < q.length := by
      cases q with
      | nil => exact absurd rfl hne
      | cons c cs => simp
    rw [startsWithCI_openTag_straddle hq0 (by omega) w] at hdrop
    exact Bool.false_ne_true hdrop

theorem startsWithCI_closeTag_append_false {q w : List Char}
    (hq : containsCI closeTag q = false) (hne : q ≠ []) :
    startsWithCI closeTag (q ++ '<' :: w) = false := by
  by_cases hlen : closeTag.length ≤ q.length
  · rw [startsWithCI_append_left _ hlen]
    cases q with
    | nil => exact absurd rfl hne
    | cons c cs =>
      simp only [containsCI, Bool.or_eq_false_iff] at hq
      exact hq.1
  · by_contra hcon
    have htrue : startsWithCI closeTag (q ++ '<' :: w) = true := by
      revert hcon
      cases startsWithCI closeTag (q ++ '<' :: w) <;> simp
    have hdrop := startsWithCI_drop_of_append htrue (by omega)
    have hq0 : 0 < q.length := by
      cases q with
      | nil => exact absurd rfl hne
      | cons c cs => simp
    rw [startsWithCI_closeTag_straddle hq0 (by omega) w] at hdrop
    exact Bool.false_ne_true hdrop

theorem findCloseCI_boundary (body s : List Char)
    (hbody : containsCI closeTag body = false) :
    findCloseCI (body ++ (closeTag ++ s)) = some s := by
  induction body with
  | nil =>
    rw [List.nil_append]
    rw [closeTag_eq, List.cons_append]
    show findCloseCI ('<' :: ("/honcho-memory>".data ++ s)) = some s
    rw [findCloseCI]
    rw [← List.cons_append, ← closeTag_eq, startsWithCI_self_append]
    simp only [if_true]
    rw [List.drop_left]
  | cons c cs ih =>
    have hq : containsCI closeTag (c :: cs) = false := hbody
    simp only [containsCI, Bool.or_eq_false_iff] at hbody
    have hguard : startsWithCI closeTag ((c :: cs) ++ (closeTag ++ s)) = false := by
      have : closeTag ++ s = '<' :: ("/honcho-memory>".data ++ s) := by
        rw [closeTag_eq, List.cons_append]
      rw [this]
      exact startsWithCI_closeTag_append_false hq (by simp)
    rw [List.cons_append]
    rw [findCloseCI]
    rw [← List.cons_append, hguard]
    simp only [Bool.false_eq_true, if_false]
    exact ih hbody.2

theorem removeHonchoBlocksAux_nil (f : Nat) : removeHonchoBlocksAux f [] = [] := by
  cases f <;> rfl

theorem removeHonchoBlocksAux_congr :
    ∀ (f₁ f₂ : Nat) (l : List Char), l.length ≤ f₁ → l.length ≤ f₂ →
      removeHonchoBlocksAux f₁ l = removeHonchoBlocksAux f₂ l := by
  intro f₁
  induction f₁ with
  | zero =>
    intro f₂ l h₁ _
    have : l = [] := List.eq_nil_of_length_eq_zero (Nat.le_zero.mp h₁)
    subst this
    rw [removeHonchoBlocksAux_nil, removeHonchoBlocksAux_nil]
  | succ n ih =>
    intro f₂ l h₁ h₂
    cases l with
    | nil => rw [removeHonchoBlocksAux_nil, removeHonchoBlocksAux_nil]
    | cons c cs =>
      have hcc : (c :: cs).length = cs.length + 1 := List.length_cons c cs
      cases f₂ with
      | zero => simp at h₂
      | succ m =>
        have hcsn : cs.length ≤ n := by omega
        have hcsm : cs.length ≤ m := by omega
        by_cases hg : startsWithCI openTag (c :: cs) = true
        · have hlen14 : openTag.length ≤ (c :: cs).length := startsWithCI_length hg
          have h14 : openTag.length = 14 := by decide
          cases hsp : splitAtGt (List.drop openTag.length (c :: cs)) with
          | none =>
            simp only [removeHonchoBlocksAux, hg, if_true, hsp]
            rw [ih m cs hcsn hcsm]
          | some pair =>
            obtain ⟨t, afterGt⟩ := pair
            have hGtLen : afterGt.length < (List.drop openTag.length (c :: cs)).length :=
              splitAtGt_length hsp
            rw [List.length_drop, hcc, h14] at hGtLen
            cases hfc : findCloseCI afterGt with
            | none =>
              simp only [removeHonchoBlocksAux, hg, if_true, hsp, hfc]
              rw [ih m cs hcsn hcsm]
            | some afterClose =>
              have hCloseLen := findCloseCI_length hfc
              have h16 : closeTag.length = 16 := by decide
              rw [h16] at hCloseLen
              have hdw := length_dropWhile_le isJsWhitespace afterClose
              simp only [removeHonchoBlocksAux, hg, if_true, hsp, hfc]
              exact ih m (afterClose.dropWhile isJsWhitespace)
                (by omega) (by omega)
        · have hg' : startsWithCI openTag (c :: cs) = false := by
            revert hg
            cases startsWithCI openTag (c :: cs) <;> simp
          simp only [removeHonchoBlocksAux, hg', Bool.false_eq_true, if_false]
          rw [ih m cs hcsn hcsm]

theorem removeHonchoBlocksAux_eq {f : Nat} {l : List Char} (h : l.length ≤ f) :
    removeHonchoBlocksAux f l = removeHonchoBlocks l :=
  removeHonchoBlocksAux_congr f l.length l h le_rfl

theorem removeHonchoBlocksAux_block (attrs body s : List Char)
    (hattrs : '>' ∉ attrs) (hbody : containsCI closeTag body = false) :
    ∀ (p : List Char) (fuel : Nat), containsCI openTag p = false →
      (p ++ (openTag ++ attrs ++ '>' :: (body ++ closeTag)) ++ s).length ≤ fuel →
      removeHonchoBlocksAux fuel (p ++ (openTag ++ attrs ++ '>' :: (body ++ closeTag)) ++ s)
        = p ++ removeHonchoBlocks (s.dropWhile isJsWhitespace) := by
  have h14 : openTag.length = 14 := by decide
  have h16 : closeTag.length = 16 := by decide
  intro p
  induction p with
  | nil =>
    intro fuel hp hlen
    rw [List.nil_append] at hlen ⊢
    rw [List.nil_append]
    have hL : (openTag ++ attrs ++ '>' :: (body ++ closeTag)) ++ s
        = openTag ++ (attrs ++ '>' :: (body ++ (closeTag ++ s))) := by
      simp [List.append_assoc]
    rw [hL] at hlen ⊢
    have hlen' : 31 + attrs.length + body.length + s.length ≤ fuel := by
      simp only [List.length_append, List.length_cons, h14, h16] at hlen
      omega
    cases fuel with
    | zero => omega
    | succ f =>
      have hcons : openTag ++ (attrs ++ '>' :: (body ++ (closeTag ++ s)))
          = '<' :: ("honcho-memory".data ++ (attrs ++ '>' :: (body ++ (closeTag ++ s)))) := by
        rw [openTag_eq, List.cons_append]
      have hguard : startsWithCI openTag
          ('<' :: ("honcho-memory".data ++ (attrs ++ '>' :: (body ++ (closeTag ++ s))))) = true := by
        rw [← hcons]
        exact startsWithCI_self_append _ _
      have hdropeq : List.drop openTag.length
          ('<' :: ("honcho-memory".data ++ (attrs ++ '>' :: (body ++ (closeTag ++ s)))))
          = attrs ++ '>' :: (body ++ (closeTag ++ s)) := by
        rw [← hcons]
        exact List.drop_left openTag _
      have hsp : splitAtGt (List.drop openTag.length
          ('<' :: ("honcho-memory".data ++ (attrs ++ '>' :: (body ++ (closeTag ++ s))))))
          = some (attrs, body ++ (closeTag ++ s)) := by
        rw [hdropeq]
        exact splitAtGt_no_gt _ hattrs
      have hfc : findCloseCI (body ++ (closeTag ++ s)) = some s :=
        findCloseCI_boundary body s hbody
      rw [hcons]
      simp only [removeHonchoBlocksAux, hguard, if_true, hsp, hfc]
      exact removeHonchoBlocksAux_eq
        (le_trans (length_dropWhile_le isJsWhitespace s) (by omega))
  | cons c p' ih =>
    intro fuel hp hlen
    have hp' : containsCI openTag p' = false := by
      simp only [containsCI, Bool.or_eq_false_iff] at hp
      exact hp.2
    have hlen1 : 1 ≤ (c :: p' ++ (openTag ++ attrs ++ '>' :: (body ++ closeTag)) ++ s).length := by
      simp
    cases fuel with
    | zero => omega
    | succ f =>
      have hbs : (openTag ++ attrs ++ '>' :: (body ++ closeTag)) ++ s
          = '<' :: ("honcho-memory".data ++ (attrs ++ '>' :: (body ++ (closeTag ++ s)))) := by
        rw [openTag_eq]
        simp [List.append_assoc]
      have hguard : startsWithCI openTag
          (c :: (p' ++ ('<' :: ("honcho-memory".data ++ (attrs ++ '>' :: (body ++ (closeTag ++ s)))))))
          = false := by
        have := startsWithCI_openTag_append_false (q := c :: p')
          (w := "honcho-memory".data ++ (attrs ++ '>' :: (body ++ (closeTag ++ s))))
          hp (by simp)
        simpa [List.cons_append] using this
      have hform : (c :: p') ++ (openTag ++ attrs ++ '>' :: (body ++ closeTag)) ++ s
          = c :: (p' ++ ('<' :: ("honcho-memory".data ++ (attrs ++ '>' :: (body ++ (closeTag ++ s)))))) := by
        rw [List.append_assoc, hbs, List.cons_append]
      rw [hform]
      simp only [removeHonchoBlocksAux, hguard, Bool.false_eq_true, if_false]
      have hrest : p' ++ ('<' :: ("honcho-memory".data ++ (attrs ++ '>' :: (body ++ (closeTag ++ s)))))
          = p' ++ (openTag ++ attrs ++ '>' :: (body ++ closeTag)) ++ s := by
        rw [List.append_assoc, hbs]
      rw [hrest, ih f hp' (by
        rw [hform] at hlen
        have hdl := List.length_cons c
          (p' ++ '<' :: ("honcho-memory".data ++ (attrs ++ '>' :: (body ++ (closeTag ++ s)))))
        rw [← hrest]
        omega)]
      simp [List.cons_append]

theorem removeHonchoBlocks_block_removed (p attrs body s : List Char)
    (hp : containsCI openTag p = false) (hattrs : '>' ∉ attrs)
    (hbody : containsCI closeTag body = false) :
    removeHonchoBlocks (p ++ (openTag ++ attrs ++ '>' :: (body ++ closeTag)) ++ s)
      = p ++ removeHonchoBlocks (s.dropWhile isJsWhitespace) :=
  removeHonchoBlocksAux_block attrs body s hattrs hbody p _ hp le_rfl

-- ============================================================================
-- Sync-engine lemmas
-- ============================================================================

theorem agentEnd_run (ev : AgentEndEvent) (st : SyncState) (w : Nat)
    (hs : ev.success = true) (hne : ev.messages ≠ [])
    (hw : st.lastSavedIndex = some w) (hle : w ≤ ev.messages.length) :
    agentEnd false ev st =
      { lastSavedIndex := some ev.messages.length,
        history := st.history ++ extractMessages (ev.messages.drop w) } := by
  obtain ⟨msi, hist⟩ := st
  simp only at hw
  subst hw
  have hempty : ev.messages.isEmpty = false := by
    cases hm : ev.messages with
    | nil => exact absurd hm hne
    | cons a l => rfl
  simp only [agentEnd, hs, hempty, Bool.not_true, Bool.or_self, Bool.false_or,
    Bool.false_eq_true, if_false, Option.getD_some]
  by_cases hskip : ev.messages.length ≤ w
  · have hww : w = ev.messages.length := le_antisymm hle hskip
    subst hww
    simp only [le_refl, if_true]
    rw [List.drop_length]
    simp [extractMessages]
  · simp only [hskip, if_false]
    cases hext : extractMessages (ev.messages.drop w) with
    | nil => simp
    | cons a l => simp

theorem agentEnd_skip (aF : Bool) (ev : AgentEndEvent) (st : SyncState) (w : Nat)
    (hw : st.lastSavedIndex = some w) (hge : ev.messages.length ≤ w) :
    agentEnd aF ev st = st := by
  obtain ⟨msi, hist⟩ := st
  simp only at hw
  subst hw
  by_cases hc : (!ev.success || ev.messages.isEmpty) = true
  · simp [agentEnd, hc]
  · have hc' : (!ev.success || ev.messages.isEmpty) = false := by
      revert hc
      cases (!ev.success || ev.messages.isEmpty) <;> simp
    simp [agentEnd, hc', hge]

theorem agentEnd_lastSavedIndex_cases (aF : Bool) (ev : AgentEndEvent) (st : SyncState) :
    (agentEnd aF ev st).lastSavedIndex = st.lastSavedIndex ∨
    (agentEnd aF ev st).lastSavedIndex = some (Nat.max 0 (ev.messages.length - 2)) ∨
    (agentEnd aF ev st).lastSavedIndex = some ev.messages.length := by
  obtain ⟨msi, hist⟩ := st
  by_cases hc : (!ev.success || ev.messages.isEmpty) = true
  · left
    simp [agentEnd, hc]
  · have hc' : (!ev.success || ev.messages.isEmpty) = false := by
      revert hc
      cases (!ev.success || ev.messages.isEmpty) <;> simp
    cases msi with
    | some w =>
      by_cases hskip : ev.messages.length ≤ w
      · left
        simp [agentEnd, hc', hskip]
      · cases hext : extractMessages (ev.messages.drop w) with
        | nil =>
          right; right
          simp [agentEnd, hc', hskip, hext]
        | cons a l =>
          cases aF with
          | true =>
            left
            simp [agentEnd, hc', hskip, hext]
          | false =>
            right; right
            simp [agentEnd, hc', hskip, hext]
    | none =>
      have hmax : Nat.max 0 (ev.messages.length - 2) = ev.messages.length - 2 := by
        simp
      by_cases hskip : ev.messages.length ≤ ev.messages.length - 2
      · right; left
        simp [agentEnd, hc', hskip, hmax]
      · cases hext : extractMessages (ev.messages.drop (ev.messages.length - 2)) with
        | nil =>
          right; right
          simp [agentEnd, hc', hskip, hext, hmax]
        | cons a l =>
          cases aF with
          | true =>
            right; left
            simp [agentEnd, hc', hskip, hext, hmax]
          | false =>
            right; right
            simp [agentEnd, hc', hskip, hext, hmax]

-- ============================================================================
-- Merger lemmas
-- ============================================================================

theorem splitLinesNl_no_newline {l : List Char} (h : '\n' ∉ l) :
    splitLinesNl l = [l] := by
  induction l with
  | nil => rfl
  | cons c cs ih =>
    simp only [List.mem_cons, not_or] at h
    have hc : ¬c = '\n' := fun hh => h.1 hh.symm
    simp [splitLinesNl, hc, ih h.2]

theorem splitLinesNl_line {l : List Char} (rest : List Char) (h : '\n' ∉ l) :
    splitLinesNl (l ++ '\n' :: rest) = l :: splitLinesNl rest := by
  induction l with
  | nil => simp [splitLinesNl]
  | cons c cs ih =>
    simp only [List.mem_cons, not_or] at h
    have hc : ¬c = '\n' := fun hh => h.1 hh.symm
    simp [splitLinesNl, hc, ih h.2]

theorem splitLinesNl_join {ls : List (List Char)} (rest : List Char)
    (h : ∀ l ∈ ls, '\n' ∉ l) (hne : ls ≠ []) :
    splitLinesNl (joinLinesNl ls ++ '\n' :: rest) = ls ++ splitLinesNl rest := by
  induction ls with
  | nil => exact absurd rfl hne
  | cons l ls ih =>
    cases ls with
    | nil =>
      simp only [joinLinesNl]
      rw [splitLinesNl_line rest (h l (by simp))]
      rfl
    | cons l₂ ls₂ =>
      have hjoin : joinLinesNl (l :: l₂ :: ls₂) = l ++ '\n' :: joinLinesNl (l₂ :: ls₂) := rfl
      rw [hjoin, List.append_assoc, List.cons_append]
      rw [splitLinesNl_line _ (h l (by simp))]
      rw [ih (fun x hx => h x (by simp [hx])) (by simp)]
      rfl

theorem takeWhile_append_cons {α : Type} (p : α → Bool) (xs : List α) (y : α)
    (zs : List α) (hxs : ∀ x ∈ xs, p x = true) (hy : p y = false) :
    List.takeWhile p (xs ++ y :: zs) = xs := by
  induction xs with
  | nil => simp [List.takeWhile, hy]
  | cons x xs ih =>
    have hx : p x = true := hxs x (by simp)
    simp only [List.cons_append, List.takeWhile_cons, hx, if_true]
    rw [ih (fun a ha => hxs a (by simp [ha]))]

theorem isPrefixOf_self (l : List Char) : List.isPrefixOf l l = true := by
  induction l with
  | nil => rfl
  | cons c cs ih => simp [List.isPrefixOf, ih]

theorem mergeManagedSection_static (marker : List Char) (aLines : List (List Char))
    (b fresh ts : List Char)
    (hmarker : '\n' ∉ marker)
    (hA1 : ∀ l ∈ aLines, List.isPrefixOf marker l = false)
    (hA2 : ∀ l ∈ aLines, '\n' ∉ l)
    (hA3 : joinLinesNl aLines ≠ []) :
    mergeManagedSection marker (joinLinesNl aLines ++ '\n' :: (marker ++ '\n' :: b)) fresh ts
      = joinLinesNl aLines ++ '\n' :: '\n' :: buildManagedSection marker fresh ts := by
  have hne : aLines ≠ [] := by
    intro h
    subst h
    exact hA3 rfl
  have hsplit := splitLinesNl_join (marker ++ '\n' :: b) hA2 hne
  have hsplit2 : splitLinesNl (marker ++ '\n' :: b) = marker :: splitLinesNl b :=
    splitLinesNl_line b hmarker
  have htake : List.takeWhile (fun l => !(List.isPrefixOf marker l))
      (aLines ++ marker :: splitLinesNl b) = aLines := by
    apply takeWhile_append_cons
    · intro x hx
      rw [hA1 x hx]
      rfl
    · rw [isPrefixOf_self]
      rfl
  simp only [mergeManagedSection, hsplit, hsplit2, htake, if_neg hA3]

-- ============================================================================
-- Claim theorems
-- ============================================================================

/-- Claim C1: for every non-empty turn log `L` delivered by a successful batch
event, and every persisted watermark `w` with `0 ≤ w ≤ |L|`, one run of the
`agent_end` sync handler submits to the remote session exactly the entries the
content extractor yields from the slice `L[w..|L|)`, in their original order,
and then persists the watermark as `|L|`. -/
theorem c1_sync_submits_exact_delta (ev : AgentEndEvent) (st : SyncState) (w : Nat)
    (hs : ev.success = true) (hne : ev.messages ≠ [])
    (hw : st.lastSavedIndex = some w) (hle : w ≤ ev.messages.length) :
    (agentEnd false ev st).history = st.history ++ extractMessages (ev.messages.drop w) ∧
    (agentEnd false ev st).lastSavedIndex = some ev.messages.length := by
  rw [agentEnd_run ev st w hs hne hw hle]
  exact ⟨rfl, rfl⟩

/-- Witness for C1: a two-turn log with watermark 1 submits exactly the
extraction of the second turn and persists the watermark 2. -/
theorem c1_witness :
    (agentEnd false
        { success := true,
          messages := [{ role := "user", content := .str "hello" },
                       { role := "assistant", content := .str "hi there" }] }
        { lastSavedIndex := some 1, history := [] }).history
      = [] ++ extractMessages
          (List.drop 1 [({ role := "user", content := .str "hello" } : Turn),
                        { role := "assistant", content := .str "hi there" }]) ∧
    (agentEnd false
        { success := true,
          messages := [{ role := "user", content := .str "hello" },
                       { role := "assistant", content := .str "hi there" }] }
        { lastSavedIndex := some 1, history := [] }).lastSavedIndex = some 2 :=
  c1_sync_submits_exact_delta
    { success := true,
      messages := [{ role := "user", content := .str "hello" },
                   { role := "assistant", content := .str "hi there" }] }
    { lastSavedIndex := some 1, history := [] } 1 rfl (by decide) rfl (by decide)

/-- Claim C4: the sync handler persists the advanced watermark only after the
submission of extracted messages succeeds: if `session.addMessages` fails, the
handler leaves the session's persisted state unchanged (the watermark stays at
the old value and the history is untouched), so a later invocation recomputes
the same delta from the old watermark. -/
theorem c4_addMessages_failure_preserves_state (ev : AgentEndEvent)
    (st : SyncState) (w : Nat) (hw : st.lastSavedIndex = some w)
    (hsome : extractMessages (ev.messages.drop w) ≠ []) :
    agentEnd true ev st = st := by
  obtain ⟨msi, hist⟩ := st
  simp only at hw
  subst hw
  by_cases hc : (!ev.success || ev.messages.isEmpty) = true
  · simp [agentEnd, hc]
  · have hc' : (!ev.success || ev.messages.isEmpty) = false := by
      revert hc
      cases (!ev.success || ev.messages.isEmpty) <;> simp
    by_cases hskip : ev.messages.length ≤ w
    · simp [agentEnd, hc', hskip]
    · cases hext : extractMessages (ev.messages.drop w) with
      | nil => exact absurd hext hsome
      | cons a l => simp [agentEnd, hc', hskip, hext]

/-- Witness for C4: with a nonempty extracted delta and a failing
`addMessages`, the state is unchanged. -/
theorem c4_witness :
    agentEnd true
        { success := true, messages := [{ role := "user", content := .str "hi" }] }
        { lastSavedIndex := some 0, history := [] }
      = { lastSavedIndex := some 0, history := [] } :=
  c4_addMessages_failure_preserves_state
    { success := true, messages := [{ role := "user", content := .str "hi" }] }
    { lastSavedIndex := some 0, history := [] } 0 rfl (by decide)

/-- Claim C5: if the delta slice from the watermark to the end of the log
yields zero storable entries after extraction and sanitization, the sync
handler still persists the watermark as the full log length and submits no
messages. -/
theorem c5_empty_extraction_advances_watermark (addMessagesFails : Bool)
    (ev : AgentEndEvent) (st : SyncState) (w : Nat)
    (hs : ev.success = true) (hne : ev.messages ≠ [])
    (hw : st.lastSavedIndex = some w) (hle : w ≤ ev.messages.length)
    (hzero : extractMessages (ev.messages.drop w) = []) :
    agentEnd addMessagesFails ev st
      = { lastSavedIndex := some ev.messages.length, history := st.history } := by
  obtain ⟨msi, hist⟩ := st
  simp only at hw
  subst hw
  have hempty : ev.messages.isEmpty = false := by
    cases hm : ev.messages with
    | nil => exact absurd hm hne
    | cons a l => rfl
  simp only [agentEnd, hs, hempty, Bool.not_true, Bool.or_self, Bool.false_or,
    Bool.false_eq_true, if_false, Option.getD_some]
  by_cases hskip : ev.messages.length ≤ w
  · have hww : w = ev.messages.length := le_antisymm hle hskip
    subst hww
    simp [le_refl]
  · simp [hskip, hzero]

/-- Witness for C5: a delta of one whitespace-only user turn yields no
storable entries; the watermark still advances to the log length. -/
theorem c5_witness :
    agentEnd false
        { success := true,
          messages := [{ role := "user", content := .str "hello" },
                       { role := "user", content := .str "   " }] }
        { lastSavedIndex := some 1, history := [] }
      = { lastSavedIndex := some 2, history := [] } :=
  c5_empty_extraction_advances_watermark false
    { success := true,
      messages := [{ role := "user", content := .str "hello" },
                   { role := "user", content := .str "   " }] }
    { lastSavedIndex := some 1, history := [] } 1 rfl (by decide) rfl (by decide)
    (by decide)

/-- Claim C6: running the sync handler twice in succession with the same turn
log (no new turns in between, first call successful) produces no additional
submissions on the second call: the second invocation finds the watermark
equal to the log length and returns with the state unchanged. -/
theorem c6_second_run_is_noop (ev : AgentEndEvent) (st : SyncState) (w : Nat)
    (hs : ev.success = true) (hne : ev.messages ≠ [])
    (hw : st.lastSavedIndex = some w) (hle : w ≤ ev.messages.length) :
    (agentEnd false ev st).lastSavedIndex = some ev.messages.length ∧
    agentEnd false ev (agentEnd false ev st) = agentEnd false ev st := by
  have h1 := agentEnd_run ev st w hs hne hw hle
  refine ⟨by rw [h1], ?_⟩
  rw [h1]
  exact agentEnd_skip false ev _ ev.messages.length rfl le_rfl

/-- Witness for C6 at a concrete one-turn log. -/
theorem c6_witness :
    (agentEnd false
        { success := true, messages := [{ role := "user", content := .str "hi" }] }
        { lastSavedIndex := some 0, history := [] }).lastSavedIndex = some 1 ∧
    agentEnd false
        { success := true, messages := [{ role := "user", content := .str "hi" }] }
        (agentEnd false
          { success := true, messages := [{ role := "user", content := .str "hi" }] }
          { lastSavedIndex := some 0, history := [] })
      = agentEnd false
          { success := true, messages := [{ role := "user", content := .str "hi" }] }
          { lastSavedIndex := some 0, history := [] } :=
  c6_second_run_is_noop
    { success := true, messages := [{ role := "user", content := .str "hi" }] }
    { lastSavedIndex := some 0, history := [] } 0 rfl (by decide) rfl (by decide)

/-- Claim C7: under the assumption that the turn log only grows between
invocations (every persisted watermark is at most the current log length),
the persisted watermark never exceeds the current turn-log length after a
run; moreover every write is either the unchanged old value, the first-time
initialization `max(0, |L| - 2)`, or the processed log length `|L|`. -/
theorem c7_watermark_never_exceeds_log (addMessagesFails : Bool)
    (ev : AgentEndEvent) (st : SyncState)
    (hgrow : ∀ w, st.lastSavedIndex = some w → w ≤ ev.messages.length) :
    ((agentEnd addMessagesFails ev st).lastSavedIndex = st.lastSavedIndex ∨
     (agentEnd addMessagesFails ev st).lastSavedIndex
        = some (Nat.max 0 (ev.messages.length - 2)) ∨
     (agentEnd addMessagesFails ev st).lastSavedIndex = some ev.messages.length) ∧
    (∀ w', (agentEnd addMessagesFails ev st).lastSavedIndex = some w' →
      w' ≤ ev.messages.length) := by
  refine ⟨agentEnd_lastSavedIndex_cases addMessagesFails ev st, ?_⟩
  intro w' h'
  rcases agentEnd_lastSavedIndex_cases addMessagesFails ev st with hc | hc | hc
  · rw [hc] at h'
    exact hgrow w' h'
  · rw [hc] at h'
    simp only [Option.some_inj] at h'
    subst h'
    simp only [Nat.zero_max]
    omega
  · rw [hc] at h'
    simp only [Option.some_inj] at h'
    omega

/-- Witness for C7: a fresh session (no watermark yet) over a two-turn log. -/
theorem c7_witness :
    ((agentEnd false
        { success := true,
          messages := [{ role := "user", content := .str "hello" },
                       { role := "assistant", content := .str "hi" }] }
        { lastSavedIndex := none, history := [] }).lastSavedIndex = none ∨
     (agentEnd false
        { success := true,
          messages := [{ role := "user", content := .str "hello" },
                       { role := "assistant", content := .str "hi" }] }
        { lastSavedIndex := none, history := [] }).lastSavedIndex
        = some (Nat.max 0 (2 - 2)) ∨
     (agentEnd false
        { success := true,
          messages := [{ role := "user", content := .str "hello" },
                       { role := "assistant", content := .str "hi" }] }
        { lastSavedIndex := none, history := [] }).lastSavedIndex = some 2) :=
  (c7_watermark_never_exceeds_log false
    { success := true,
      messages := [{ role := "user", content := .str "hello" },
                   { role := "assistant", content := .str "hi" }] }
    { lastSavedIndex := none, history := [] }
    (fun _ h => nomatch h)).1

/-- Claim C10: sanitization is applied only to user-role turns: for every
assistant-role turn, `extractMessages` submits the flattened
(text-blocks-only, newline-joined), trimmed content verbatim; memory-context
blocks and platform envelope markers in an assistant turn are not stripped. -/
theorem c10_assistant_turns_not_sanitized (c : MessageContent) (rest : List Turn) :
    extractMessages ({ role := "assistant", content := c } :: rest)
      = (if jsTrim (flattenContent c) = "" then extractMessages rest
         else { peerId := MOLTBOT_ID, content := jsTrim (flattenContent c) }
            :: extractMessages rest) := by
  have h1 : (("assistant" : String) != "user") = true := by decide
  have h2 : (("assistant" : String) != "assistant") = false := by decide
  have h3 : (("assistant" : String) == "user") = false := by decide
  simp only [extractMessages, h1, h2, h3, Bool.true_and, Bool.and_false,
    Bool.false_eq_true, if_false]

/-- Claim C3: for every human(user)-role turn whose content contains a
previously-injected memory-context block, no part of that block — not even a
partial fragment — appears in the text submitted for storage: the sanitizer
excises the entire `<honcho-memory ...>...</honcho-memory>` span (markup,
attributes and body) before any further processing, so the submitted text is
computed from the surrounding text `p` and `s` alone, with no dependence on
the block.  The hypotheses state that the block is well-formed (its attribute
text contains no `'>'` and its body does not contain the closing tag) and
that `p` itself contains no open literal. -/
theorem c3_injected_block_never_stored (p attrs body s : String)
    (hp : containsCI openTag p.data = false)
    (hattrs : '>' ∉ attrs.data)
    (hbody : containsCI closeTag body.data = false) :
    cleanMessageContent (p ++ honchoMemoryBlock attrs body ++ s)
      = cleanFromComments (p.data ++ removeHonchoBlocks (s.data.dropWhile isJsWhitespace)) := by
  unfold cleanMessageContent
  congr 1
  have hdata : (p ++ honchoMemoryBlock attrs body ++ s).data
      = p.data ++ (openTag ++ attrs.data ++ '>' :: (body.data ++ closeTag)) ++ s.data := by
    simp [String.data_append, honchoMemoryBlock, openTag, closeTag,
      List.append_assoc]
  rw [hdata]
  exact removeHonchoBlocks_block_removed p.data attrs.data body.data s.data hp hattrs hbody

/-- Witness for C3: a concrete user turn carrying an injected block; its
sanitized text is exactly the one computed from the surrounding text. -/
theorem c3_witness :
    cleanMessageContent
        ("User asked: " ++ honchoMemoryBlock " hidden=\"true\"" "Key facts:\nlikes tea"
          ++ " What did I say?")
      = cleanFromComments ("User asked: ".data
          ++ removeHonchoBlocks ((" What did I say?" : String).data.dropWhile isJsWhitespace)) :=
  c3_injected_block_never_stored "User asked: " " hidden=\"true\"" "Key facts:\nlikes tea"
    " What did I say?" (by decide) (by decide) (by decide)

/-- Counterexample to claim C2 as stated: the legacy migration variant in
src/unnamed/part_002 removes the legacy file `USER.md` even though no API
credential is present, so no submission to the external store has happened
(the script logs that data may be lost and cleans up anyway).  This refutes
the claim's "every variant of the migration tool" clause. -/
theorem c2_counterexample :
    (LegacyInstall.migrateAndCleanup false false true ["USER.md"]).workspace = [] := by
  rfl

/-- Claim C2, amended: if batch submission fails or the API credential is
missing, the migration run of src/install.js and the archival variant remove
or relocate nothing and report the failure, and the one-time backup script
never removes anything; but the legacy cleanup variant in
src/unnamed/part_002 removes the legacy files and directories regardless of
credential or submission outcome. -/
theorem c2_amended_migration_safety :
    (∀ (hasApiKey submitFails : Bool) (ws : List String),
        (!hasApiKey || submitFails) = true →
        InstallJs.migrateAndCleanup hasApiKey submitFails ws
          = { workspace := ws, submitted := false, reportedFailure := true }) ∧
    (∀ (hasApiKey submitFails : Bool) (timestamp : String) (ws : List String),
        (!hasApiKey || submitFails) = true →
        ArchiveInstall.migrateAndCleanup hasApiKey submitFails timestamp ws
          = { workspace := ws, submitted := false, reportedFailure := true }) ∧
    (∀ (hasApiKey submitFails : Bool) (ws : List String),
        (BackupScript.run hasApiKey submitFails ws).workspace = ws) ∧
    (∀ (submitFails hasConclusions : Bool) (ws : List String),
        (LegacyInstall.migrateAndCleanup false submitFails hasConclusions ws).workspace
          = ws.filter (fun p => !LegacyInstall.deletionTarget p)) := by
  refine ⟨?_, ?_, ?_, ?_⟩
  · intro hk sf ws h
    cases hk <;> cases sf <;> simp_all [InstallJs.migrateAndCleanup]
  · intro hk sf ts ws h
    cases hk <;> cases sf <;> simp_all [ArchiveInstall.migrateAndCleanup]
  · intro hk sf ws
    rfl
  · intro sf hc ws
    rfl

/-- Witness for C2 (amended): with the credential missing, src/install.js
leaves a concrete workspace untouched and reports the failure. -/
theorem c2_witness :
    InstallJs.migrateAndCleanup false false ["USER.md", "SOUL.md"]
      = { workspace := ["USER.md", "SOUL.md"], submitted := false,
          reportedFailure := true } :=
  c2_amended_migration_safety.1 false false ["USER.md", "SOUL.md"] rfl

/-- Counterexample to claim C8 as stated: with `apiKey` configured as an
unresolved environment reference and that variable unset, configuration
parsing throws out of `register` (the thrown error is modelled as
`Except.error`) instead of surfacing a startup warning and proceeding in a
degraded mode. -/
theorem c8_counterexample :
    registerPlugin (fun _ => none)
        { apiKey := some "$\x7bHONCHO_API_KEY\x7d", workspaceId := none,
          baseUrl := none, syncOnStartup := none, dailySyncEnabled := none,
          syncFrequency := none }
      = Except.error "Environment variable HONCHO_API_KEY is not set" := by
  rfl

/-- Claim C8, amended: a missing required credential is surfaced as a startup
warning and plugin registration completes so operations proceed in a degraded
mode; but an unresolved environment reference in the `apiKey` config value
makes `honchoConfigSchema.parse` throw out of `register`, so registration
does not complete in that case. -/
theorem c8_amended_config_failure :
    (∀ (env : String → Option String) (cfg : RawPluginConfig),
        cfg.apiKey = none → env "HONCHO_API_KEY" = none →
        registerPlugin env cfg = Except.ok true) ∧
    (∀ (env : String → Option String) (cfg : RawPluginConfig) (s e : String),
        cfg.apiKey = some s → 0 < s.length →
        resolveEnvVars env s = Except.error e →
        registerPlugin env cfg = Except.error e) := by
  constructor
  · intro env cfg h1 h2
    simp [registerPlugin, parseHonchoConfig, h1, h2, registerWarnsNoApiKey,
      Except.map]
  · intro env cfg s e h1 h2 h3
    simp [registerPlugin, parseHonchoConfig, h1, h2, h3, Except.map]

/-- Witness for C8 (amended): a concrete missing-credential configuration
registers with a warning, and a concrete unresolved reference throws. -/
theorem c8_witness :
    registerPlugin (fun _ => none)
        { apiKey := none, workspaceId := none, baseUrl := none,
          syncOnStartup := none, dailySyncEnabled := none, syncFrequency := none }
      = Except.ok true ∧
    registerPlugin (fun _ => none)
        { apiKey := some "$\x7bMY_VAR\x7d", workspaceId := none, baseUrl := none,
          syncOnStartup := none, dailySyncEnabled := none, syncFrequency := none }
      = Except.error "Environment variable MY_VAR is not set" :=
  ⟨c8_amended_config_failure.1 (fun _ => none)
      { apiKey := none, workspaceId := none, baseUrl := none,
        syncOnStartup := none, dailySyncEnabled := none, syncFrequency := none }
      rfl rfl,
   c8_amended_config_failure.2 (fun _ => none)
      { apiKey := some "$\x7bMY_VAR\x7d", workspaceId := none, baseUrl := none,
        syncOnStartup := none, dailySyncEnabled := none, syncFrequency := none }
      "$\x7bMY_VAR\x7d" "Environment variable MY_VAR is not set" rfl (by decide) rfl⟩

/-- Claim C9 (the merger is modelled from the spec, section 4.4; it has no
implementation under src/): for every knowledge file with human-authored
static text before the managed-section header and a previous managed section
`B`, merging fresh content `C` yields the static portion byte-for-byte,
followed by a managed section containing `C`; the old section `B` does not
appear (the output is the same for every old section, so nothing of `B`
survives).  The static text is given as its list of newline-free lines, none
of which starts with the header marker. -/
theorem c9_merge_preserves_static_content (marker : List Char)
    (aLines : List (List Char)) (b fresh ts : List Char)
    (hmarker : '\n' ∉ marker)
    (hA1 : ∀ l ∈ aLines, List.isPrefixOf marker l = false)
    (hA2 : ∀ l ∈ aLines, '\n' ∉ l)
    (hA3 : joinLinesNl aLines ≠ []) :
    mergeManagedSection marker (joinLinesNl aLines ++ '\n' :: (marker ++ '\n' :: b)) fresh ts
      = joinLinesNl aLines ++ '\n' :: '\n' :: buildManagedSection marker fresh ts
    ∧ fresh <:+: buildManagedSection marker fresh ts
    ∧ ∀ b2 : List Char,
        mergeManagedSection marker (joinLinesNl aLines ++ '\n' :: (marker ++ '\n' :: b)) fresh ts
          = mergeManagedSection marker (joinLinesNl aLines ++ '\n' :: (marker ++ '\n' :: b2)) fresh ts := by
  refine ⟨mergeManagedSection_static marker aLines b fresh ts hmarker hA1 hA2 hA3, ?_, ?_⟩
  · exact ⟨marker ++ '\n' :: (doNotEditNotice ++ ['\n', '\n']),
      '\n' :: '\n' :: (sectionSeparator ++ '\n' :: ("Last synced: ".data ++ ts)), by
        simp [buildManagedSection, List.append_assoc]⟩
  · intro b2
    rw [mergeManagedSection_static marker aLines b fresh ts hmarker hA1 hA2 hA3,
        mergeManagedSection_static marker aLines b2 fresh ts hmarker hA1 hA2 hA3]

/-- Witness for C9: merging over a concrete file with one static line and an
old managed section yields the static line verbatim plus the new section. -/
theorem c9_witness :
    mergeManagedSection "## Memory".data
        ("# Notes".data ++ '\n' :: ("## Memory".data ++ '\n' :: "old".data))
        "NEW".data "T".data
      = "# Notes".data ++ '\n' :: '\n' :: buildManagedSection "## Memory".data "NEW".data "T".data :=
  (c9_merge_preserves_static_content "## Memory".data ["# Notes".data] "old".data
    "NEW".data "T".data (by decide) (by decide) (by decide) (by decide)).1
